import Mathlib

/-!
Shallow embedding of the query-construction and date-range batching core of
`src/app.js` (gmail-cli): `constructSearchQuery`, `parseBatchSize` (integer
count branch and duration branch), `searchEmails`, and the `emails search`
action's batch loop.  Calendar dates are modelled as year/month/day records
with proleptic-Gregorian day arithmetic mirroring the date-fns library calls
(`add`, `differenceInCalendarDays`) used by the source.
-/

namespace GmailCli

/-- A calendar date, the date part of a JS `Date` at local midnight as
produced by `parse(s, "yyyy-MM-dd", new Date())` in the source. -/
structure CalDate where
  year : Nat
  month : Nat
  day : Nat
  deriving DecidableEq, Repr

/-- Gregorian leap-year test. -/
def isLeap (y : Nat) : Bool :=
  (y % 4 == 0 && y % 100 != 0) || y % 400 == 0

/-- Number of days in a month of a given year (months are 1-based). -/
def daysInMonth (y m : Nat) : Nat :=
  if m == 2 then (if isLeap y then 29 else 28)
  else if m == 4 || m == 6 || m == 9 || m == 11 then 30
  else 31

/-- Days in the months of year `y` strictly before month `m`. -/
def daysBeforeMonth (y m : Nat) : Nat :=
  ((List.range (m - 1)).map (fun i => daysInMonth y (i + 1))).sum

/-- Number of leap years in `1 .. y-1`. -/
def leapsBefore (y : Nat) : Nat :=
  ((y - 1) / 4 - (y - 1) / 100) + (y - 1) / 400

/-- Day count from the proleptic epoch; the linear timeline a JS `Date`
timestamp induces on calendar dates (one day = one unit). -/
def toDays (d : CalDate) : Nat :=
  365 * (d.year - 1) + leapsBefore d.year + daysBeforeMonth d.year d.month + (d.day - 1)

/-- Validity of a calendar date (what `parse` yields for a well-formed
`yyyy-MM-dd` string). -/
def ValidDate (d : CalDate) : Prop :=
  1 ≤ d.year ∧ 1 ≤ d.month ∧ d.month ≤ 12 ∧ 1 ≤ d.day ∧ d.day ≤ daysInMonth d.year d.month

instance (d : CalDate) : Decidable (ValidDate d) := by
  unfold ValidDate; infer_instance

/-- JS `<` on two `Date`s, which compares timestamps. -/
def dateLt (a b : CalDate) : Bool := toDays a < toDays b

/-- JS `<=` on two `Date`s. -/
def dateLe (a b : CalDate) : Bool := toDays a ≤ toDays b

/-- The calendar successor day. -/
def nextDay (d : CalDate) : CalDate :=
  if d.day < daysInMonth d.year d.month then ⟨d.year, d.month, d.day + 1⟩
  else if d.month < 12 then ⟨d.year, d.month + 1, 1⟩
  else ⟨d.year + 1, 1, 1⟩

/-- The calendar predecessor day. -/
def prevDay (d : CalDate) : CalDate :=
  if 1 < d.day then ⟨d.year, d.month, d.day - 1⟩
  else if 1 < d.month then ⟨d.year, d.month - 1, daysInMonth d.year (d.month - 1)⟩
  else ⟨d.year - 1, 12, 31⟩

/-- date-fns `add(date, \x7b days: k \x7d)` for a nonnegative day count. -/
def addDays (d : CalDate) (k : Nat) : CalDate := nextDay^[k] d

/-- date-fns `add(date, \x7b days: k \x7d)` for a possibly negative day count,
as used by the count branch of `parseBatchSize` where `daysPerBatch` is a JS
number that is negative when the range is inverted. -/
def addDaysInt (d : CalDate) (k : Int) : CalDate :=
  if 0 ≤ k then addDays d k.toNat else prevDay^[k.natAbs] d

/-- date-fns `addMonths`: move `k` months forward, clamping the day-of-month
to the length of the target month. -/
def addMonths (d : CalDate) (k : Nat) : CalDate :=
  let m0 := d.month - 1 + k
  let y := d.year + m0 / 12
  let m := m0 % 12 + 1
  ⟨y, m, min d.day (daysInMonth y m)⟩

/-- date-fns `differenceInCalendarDays(a, b)`: signed count of calendar days
from `b` to `a`. -/
def differenceInCalendarDays (a b : CalDate) : Int :=
  (toDays a : Int) - (toDays b : Int)

/-- JS truthiness of an optional string option: `undefined` and `""` are
falsy, every other string is truthy. -/
def truthyStr (o : Option String) : Bool :=
  match o with
  | none => false
  | some s => !(s == "")

/-- The search criteria record handed to `constructSearchQuery`: each CLI
option is either absent (`undefined`) or a string. -/
structure SearchCriteria where
  keyword : Option String
  fromAddr : Option String
  toAddr : Option String
  label : Option String
  startDate : Option String
  endDate : Option String
  deriving DecidableEq, Repr

/-- `constructSearchQuery` from `src/app.js` lines 52-76: push one clause per
truthy field onto `queryParts` in source order, then join with a single
space. -/
def constructSearchQuery (criteria : SearchCriteria) : String :=
  let queryParts : List String := []
  let queryParts := if truthyStr criteria.keyword then
      queryParts ++ ["(" ++ criteria.keyword.getD "" ++ " in:body OR " ++
        criteria.keyword.getD "" ++ " in:subject)"]
    else queryParts
  let queryParts := if truthyStr criteria.fromAddr then
      queryParts ++ ["from:" ++ criteria.fromAddr.getD ""]
    else queryParts
  let queryParts := if truthyStr criteria.toAddr then
      queryParts ++ ["to:" ++ criteria.toAddr.getD ""]
    else queryParts
  let queryParts := if truthyStr criteria.label then
      queryParts ++ ["label:" ++ criteria.label.getD ""]
    else queryParts
  let queryParts :=
    if truthyStr criteria.startDate && truthyStr criteria.endDate then
      queryParts ++ ["after:" ++ criteria.startDate.getD "" ++ " before:" ++
        criteria.endDate.getD ""]
    else if truthyStr criteria.startDate then
      queryParts ++ ["after:" ++ criteria.startDate.getD ""]
    else if truthyStr criteria.endDate then
      queryParts ++ ["before:" ++ criteria.endDate.getD ""]
    else queryParts
  String.intercalate " " queryParts

/-- The clause list the specification describes for `buildQuery`: one clause
per present (non-empty) field, in the fixed order keyword, from, to, label,
date; the date clause has the three both/start-only/end-only forms. -/
def specClauses (c : SearchCriteria) : List String :=
  (List.filterMap id
    [ if truthyStr c.keyword then
        some ("(" ++ c.keyword.getD "" ++ " in:body OR " ++ c.keyword.getD "" ++ " in:subject)")
      else none,
      if truthyStr c.fromAddr then some ("from:" ++ c.fromAddr.getD "") else none,
      if truthyStr c.toAddr then some ("to:" ++ c.toAddr.getD "") else none,
      if truthyStr c.label then some ("label:" ++ c.label.getD "") else none,
      if truthyStr c.startDate && truthyStr c.endDate then
        some ("after:" ++ c.startDate.getD "" ++ " before:" ++ c.endDate.getD "")
      else if truthyStr c.startDate then some ("after:" ++ c.startDate.getD "")
      else if truthyStr c.endDate then some ("before:" ++ c.endDate.getD "")
      else none ])

/-- `buildQuery` as the specification words it: the clauses of `specClauses`
joined by a single space. -/
def specBuildQuery (c : SearchCriteria) : String :=
  String.intercalate " " (specClauses c)

/-- The all-absent criteria record. -/
def emptyCriteria : SearchCriteria :=
  ⟨none, none, none, none, none, none⟩

/-- Replace an empty-string field by an absent one. -/
def emptyToNone (o : Option String) : Option String :=
  match o with
  | some s => if s = "" then none else some s
  | none => none

/-- Normalise a criteria record by dropping empty-string fields. -/
def normalizeCriteria (c : SearchCriteria) : SearchCriteria :=
  ⟨emptyToNone c.keyword, emptyToNone c.fromAddr, emptyToNone c.toAddr,
    emptyToNone c.label, emptyToNone c.startDate, emptyToNone c.endDate⟩

/-- One date interval pushed onto `intervals` by `parseBatchSize`; `stop`
models the JS field named `end` (a Lean keyword). -/
structure DateInterval where
  start : CalDate
  stop : CalDate
  deriving DecidableEq, Repr

/-- The `for` loop of the integer-count branch of `parseBatchSize`
(`src/app.js` lines 192-200), recursing on the number of remaining
iterations: `remaining = 1` is the final iteration (`i === batchSize - 1`),
where `currentEnd` is overwritten with `end`; afterwards
`currentStart = add(currentEnd, \x7b days: 1 \x7d)`. -/
def countLoop (daysPerBatch : Int) (endD : CalDate) : CalDate → Nat → List DateInterval
  | _, 0 => []
  | currentStart, remaining + 1 =>
    let currentEnd := if remaining = 0 then endD else addDaysInt currentStart daysPerBatch
    ⟨currentStart, currentEnd⟩ :: countLoop daysPerBatch endD (addDaysInt currentEnd 1) remaining

/-- The integer-count branch of `parseBatchSize` (`src/app.js` lines
188-200): `totalDays = differenceInCalendarDays(end, start)`,
`daysPerBatch = Math.floor(totalDays / batchSize)` (JS floor division),
then the loop building `batchSize` intervals. -/
def parseBatchSizeCount (batchSize : Nat) (start endD : CalDate) : List DateInterval :=
  let totalDays := differenceInCalendarDays endD start
  let daysPerBatch := Int.fdiv totalDays batchSize
  countLoop daysPerBatch endD start batchSize

/-- date-fns pluralisation in `parseBatchSize`:
`unit.endsWith("s") ? unit : unit + "s"`; ending in `"s"` is checked on the
character list (the last character being `s`), which is what
`String.endsWith` with a one-character suffix means. -/
def normalizeUnit (unit : String) : String :=
  if unit.data.getLast? = some 's' then unit else unit ++ "s"

/-- date-fns `add(date, duration)` for the single-key duration object the
duration branch builds: years and months are applied through `addMonths`
(day-of-month clamped), weeks and days through plain day addition, and a
duration key `add` does not recognise is ignored (the date is returned
unchanged). -/
def applyDuration (unit : String) (amount : Nat) (d : CalDate) : CalDate :=
  let u := normalizeUnit unit
  if u = "days" then addDays d amount
  else if u = "weeks" then addDays d (7 * amount)
  else if u = "months" then addMonths d amount
  else if u = "years" then addMonths d (12 * amount)
  else d

/-- The `while (currentStart < end)` loop of the duration branch of
`parseBatchSize` (`src/app.js` lines 209-214), fuelled because the source
loop need not terminate (the step can be the identity): `none` means the
fuel ran out before the loop finished. -/
def durationLoopF (step : CalDate → CalDate) (endD : CalDate) : CalDate → Nat → Option (List DateInterval)
  | _, 0 => none
  | currentStart, fuel + 1 =>
    if dateLt currentStart endD then
      let nextStart := step currentStart
      match durationLoopF step endD nextStart fuel with
      | none => none
      | some rest =>
        some (⟨currentStart, if dateLt endD nextStart then endD else nextStart⟩ :: rest)
    else some []

/-- The duration branch of `parseBatchSize` (`src/app.js` lines 201-215)
for an already-split `amount unit` pair, fuelled. -/
def parseBatchSizeDuration (amount : Nat) (unit : String) (start endD : CalDate)
    (fuel : Nat) : Option (List DateInterval) :=
  durationLoopF (applyDuration unit amount) endD start fuel

/-- Decimal value of a digit character list. -/
def digitsToNat (cs : List Char) : Nat :=
  cs.foldl (fun acc c => 10 * acc + (c.toNat - 48)) 0

/-- JS `Number(s)` restricted to the token shapes the CLI receives: a
non-empty all-digit token is that integer, anything else (a token with a
space, a unit word, a fraction) is `NaN` or a non-integer, modelled as
`none`.  `Number.isInteger(Number(batchSize))` is `(jsNumberNat s).isSome`. -/
def jsNumberNat (s : String) : Option Nat :=
  if s.data ≠ [] ∧ s.data.all Char.isDigit then some (digitsToNat s.data) else none

/-- JS `parseInt(s)` on such tokens: the longest digit prefix, `none` for
`NaN`. -/
def jsParseInt (s : String) : Option Nat :=
  let digits := s.data.takeWhile Char.isDigit
  if digits = [] then none else some (digitsToNat digits)

/-- JS `s.split(" ")` on the character list: split at every single space,
keeping empty segments. -/
def splitOnSpaceChars (cs : List Char) : List (List Char) :=
  match cs with
  | [] => [[]]
  | c :: rest =>
    let r := splitOnSpaceChars rest
    if c = ' ' then [] :: r
    else
      match r with
      | [] => [[c]]
      | g :: gs => (c :: g) :: gs

/-- How `parseBatchSize` dispatches on the batch-size token. -/
inductive BatchParse where
  /-- `Number.isInteger(Number(batchSize))` held: the count branch runs. -/
  | count (n : Nat)
  /-- The token split on a space into an amount and a unit word. -/
  | duration (amount : Option Nat) (unit : String)
  /-- The token had no space: `unit` is `undefined` and
  `unit.endsWith("s")` throws a synchronous `TypeError`. -/
  | jsTypeError
  deriving DecidableEq, Repr

/-- The dispatch of `parseBatchSize` (`src/app.js` lines 188-205) on the raw
batch-size token: integer tokens take the count branch; otherwise the token
is split on `" "` and destructured into `[amount, unit]`, and a token with
no space leaves `unit` undefined, so `unit.endsWith` throws a `TypeError`. -/
def classifyBatchToken (s : String) : BatchParse :=
  match jsNumberNat s with
  | some n => .count n
  | none =>
    match splitOnSpaceChars s.data with
    | [] => .jsTypeError
    | [_] => .jsTypeError
    | amount :: unit :: _ => .duration (jsParseInt (String.mk amount)) (String.mk unit)

/-- Left-pad a number to two digits, as in an ISO date. -/
def pad2 (n : Nat) : String :=
  if n < 10 then "0" ++ toString n else toString n

/-- `range.start.toISOString().slice(0, 10)` on a calendar date. -/
def dateToIso (d : CalDate) : String :=
  toString d.year ++ "-" ++ pad2 d.month ++ "-" ++ pad2 d.day

/-- The detailed record `searchEmails` assembles per message; the header
values are opaque strings here. -/
structure MessageSummary where
  msgId : Nat
  snippet : String
  deriving DecidableEq, Repr

/-- The remote Gmail surface `searchEmails` talks to, injected so that its
behaviour (results or thrown errors) can be chosen per theorem:
`list query maxResults` models `gmail.users.messages.list` and `getMsg id`
models `gmail.users.messages.get`; `Except.error` is a rejected promise. -/
structure MailClient where
  list : String → Nat → Except String (List Nat)
  getMsg : Nat → Except String MessageSummary

/-- The `maxResults` request parameter of the one list call `searchEmails`
makes: the JS expression `limit || 500` (`undefined` and `0` are falsy). -/
def listMaxResults (limit : Option Nat) : Nat :=
  match limit with
  | none => 500
  | some k => if k = 0 then 500 else k

/-- `searchEmails` (`src/app.js` lines 260-304): build the query, make one
list call with `maxResults: limit || 500`, then fetch every listed message's
details; any rejection propagates out unchanged (the `catch` re-throws). -/
def searchEmails (gmail : MailClient) (criteria : SearchCriteria)
    (limit : Option Nat) : Except String (List MessageSummary) := do
  let query := constructSearchQuery criteria
  let messages ← gmail.list query (listMaxResults limit)
  messages.mapM gmail.getMsg

/-- The per-batch criteria record: the base criteria with `startDate` and
`endDate` overwritten by the interval's ISO bounds
(`src/app.js` lines 374-375). -/
def rangeCriteria (base : SearchCriteria) (range : DateInterval) : SearchCriteria :=
  { base with
    startDate := some (dateToIso range.start),
    endDate := some (dateToIso range.stop) }

/-- The `for (const range of dateRanges)` loop of the `emails search` action
(`src/app.js` lines 373-378): per range, overwrite the criteria's dates with
the range's ISO bounds, await `searchEmails`, and append its results;  the
first rejection aborts the loop and propagates. -/
def batchLoop (gmail : MailClient) (base : SearchCriteria) (limit : Option Nat) :
    List DateInterval → Except String (List MessageSummary)
  | [] => .ok []
  | range :: rest => do
    let messages ← searchEmails gmail (rangeCriteria base range) limit
    let restMessages ← batchLoop gmail base limit rest
    .ok (messages ++ restMessages)

/-- The tail of the `emails search` action (`src/app.js` lines 371-383):
run the batch loop over the partitioned ranges, then, when `options.limit`
is truthy, truncate the accumulated list with `slice(0, limit)`. -/
def emailsSearchAction (gmail : MailClient) (base : SearchCriteria)
    (limit : Option Nat) (dateRanges : List DateInterval) :
    Except String (List MessageSummary) := do
  let allMessages ← batchLoop gmail base limit dateRanges
  match limit with
  | some k => if k = 0 then .ok allMessages else .ok (allMessages.take k)
  | none => .ok allMessages

/-- One non-final iteration of the count loop advances `currentStart` by
`daysPerBatch` days (to `currentEnd`) plus one day. -/
def countStep (daysPerBatch : Int) (d : CalDate) : CalDate :=
  addDaysInt (addDaysInt d daysPerBatch) 1

/-- The three intervals the specification expects from
`partition(Duration(1, month), 2023-01-01, 2023-03-31)`. -/
def exampleDurationIntervals : List DateInterval :=
  [⟨⟨2023, 1, 1⟩, ⟨2023, 2, 1⟩⟩, ⟨⟨2023, 2, 1⟩, ⟨2023, 3, 1⟩⟩, ⟨⟨2023, 3, 1⟩, ⟨2023, 3, 31⟩⟩]

/-- A client whose every batch returns the same three messages. -/
def threeClient : MailClient where
  list := fun _ _ => .ok [0, 1, 2]
  getMsg := fun i => .ok ⟨i, "m"⟩

/-- A middle-of-three-batches failure for the C6 witness: the list call
rejects exactly on the query of the second interval. -/
def failSecondClient : MailClient where
  list := fun q _ =>
    if q = constructSearchQuery (rangeCriteria emptyCriteria
        ⟨⟨2023, 1, 11⟩, ⟨2023, 1, 20⟩⟩) then .error "boom"
    else .ok []
  getMsg := fun i => .ok ⟨i, "m"⟩

/-- A client that records the `maxResults` request parameter it receives in
the message id of its single result. -/
def maxResultsProbe : MailClient where
  list := fun _ maxResults => .ok [maxResults]
  getMsg := fun i => .ok ⟨i, ""⟩

/-- Dropping an empty-string field is invisible to truthiness. -/
lemma emptyToNone_eq (o : Option String) :
    emptyToNone o = if truthyStr o then o else none := by
  cases o with
  | none => rfl
  | some s => by_cases h : s = "" <;> simp [emptyToNone, truthyStr, h]

/-- An absent option is falsy. -/
@[simp] lemma truthyStr_none : truthyStr none = false := rfl

/-- **C1.** `constructSearchQuery` emits exactly one clause per present
field, joined by a single space, in the fixed order keyword, from, to,
label, date, with the date clause in its both/start-only/end-only forms,
and a criteria record with every field absent yields the empty string. -/
theorem claim_c1_buildQuery_clauses :
    (∀ c : SearchCriteria, constructSearchQuery c = specBuildQuery c) ∧
      constructSearchQuery emptyCriteria = "" := by
  constructor
  · intro c
    simp only [constructSearchQuery, specBuildQuery, specClauses]
    cases hk : truthyStr c.keyword <;> cases hf : truthyStr c.fromAddr <;>
      cases ht : truthyStr c.toAddr <;> cases hl : truthyStr c.label <;>
      cases hs : truthyStr c.startDate <;> cases he : truthyStr c.endDate <;>
      simp
  · rfl

/-- **C10.** A field bound to the empty string is treated by
`constructSearchQuery` exactly as an absent field: the query built from a
record equals the query built from its normalisation where empty-string
fields are dropped. -/
theorem claim_c10_empty_string_like_absent (c : SearchCriteria) :
    constructSearchQuery (normalizeCriteria c) = constructSearchQuery c := by
  simp only [normalizeCriteria, emptyToNone_eq]
  simp only [constructSearchQuery]
  cases hk : truthyStr c.keyword <;> cases hf : truthyStr c.fromAddr <;>
    cases ht : truthyStr c.toAddr <;> cases hl : truthyStr c.label <;>
    cases hs : truthyStr c.startDate <;> cases he : truthyStr c.endDate <;>
    simp [hk, hf, ht, hl, hs, he]


/-- The count loop runs exactly its remaining-iteration count. -/
lemma countLoop_length (daysPerBatch : Int) (endD : CalDate) :
    ∀ (r : Nat) (cur : CalDate), (countLoop daysPerBatch endD cur r).length = r := by
  intro r
  induction r with
  | zero => intro cur; rfl
  | succ r ih => intro cur; simp [countLoop, ih]

/-- Closed form of the count loop: element `i` starts at the `i`-th iterate
of `countStep` and ends `daysPerBatch` days later, except that the final
element ends at `endD`. -/
lemma countLoop_getElem (daysPerBatch : Int) (endD : CalDate) :
    ∀ (r : Nat) (cur : CalDate) (i : Nat), i < r →
      (countLoop daysPerBatch endD cur r)[i]? =
        some ⟨(countStep daysPerBatch)^[i] cur,
          if i = r - 1 then endD
          else addDaysInt ((countStep daysPerBatch)^[i] cur) daysPerBatch⟩ := by
  intro r
  induction r with
  | zero => intro cur i hi; omega
  | succ r ih =>
    intro cur i hi
    cases i with
    | zero =>
      rcases Nat.eq_zero_or_pos r with hr | hr
      · subst hr; simp [countLoop]
      · have h1 : r ≠ 0 := by omega
        have h1' : (0 : Nat) ≠ r := by omega
        have h2 : (0 : Nat) ≠ r + 1 - 1 := by omega
        simp [countLoop, h1, h1', h2]
    | succ j =>
      have hj : j < r := by omega
      have hr : r ≠ 0 := by omega
      simp only [countLoop, List.getElem?_cons_succ]
      rw [if_neg hr]
      rw [Function.iterate_succ_apply (countStep daysPerBatch) j cur]
      have hcond : (j + 1 = r + 1 - 1) ↔ (j = r - 1) := by omega
      simp only [hcond]
      exact ih (countStep daysPerBatch cur) j hj

/-- Every month of a year has at least 28 days. -/
lemma daysInMonth_pos (y m : Nat) : 28 ≤ daysInMonth y m := by
  unfold daysInMonth
  split
  · split <;> omega
  · split <;> omega

/-- Peeling one month off the cumulative day count. -/
lemma daysBeforeMonth_succ (y m : Nat) (hm : 1 ≤ m) :
    daysBeforeMonth y (m + 1) = daysBeforeMonth y m + daysInMonth y m := by
  unfold daysBeforeMonth
  have h1 : m + 1 - 1 = (m - 1) + 1 := by omega
  rw [h1, List.range_succ]
  have h2 : m - 1 + 1 = m := by omega
  simp [h2]

/-- The days of months 1..11 sum to 334, plus one in a leap year. -/
lemma daysBeforeMonth_twelve (y : Nat) :
    daysBeforeMonth y 12 = 334 + (if isLeap y then 1 else 0) := by
  have h : List.range 11 = [0, 1, 2, 3, 4, 5, 6, 7, 8, 9, 10] := by decide
  cases hl : isLeap y <;> simp [daysBeforeMonth, h, daysInMonth, hl]

/-- Counting leap years gains exactly one at each leap year. -/
lemma leapsBefore_succ (y : Nat) (hy : 1 ≤ y) :
    leapsBefore (y + 1) = leapsBefore y + (if isLeap y then 1 else 0) := by
  unfold leapsBefore isLeap
  simp only [Bool.or_eq_true, Bool.and_eq_true, beq_iff_eq, bne_iff_ne, ne_eq]
  split <;> omega

/-- The successor day of a valid date is valid. -/
lemma validDate_nextDay {d : CalDate} (h : ValidDate d) : ValidDate (nextDay d) := by
  obtain ⟨hy, hm1, hm2, hd1, hd2⟩ := h
  unfold nextDay
  split
  · refine ⟨?_, ?_, ?_, ?_, ?_⟩ <;> dsimp only <;> omega
  · split
    · have hpos := daysInMonth_pos d.year (d.month + 1)
      refine ⟨?_, ?_, ?_, ?_, ?_⟩ <;> dsimp only <;> omega
    · have hpos := daysInMonth_pos (d.year + 1) 1
      have h31 : daysInMonth (d.year + 1) 1 = 31 := rfl
      refine ⟨?_, ?_, ?_, ?_, ?_⟩ <;> dsimp only <;> omega

/-- On valid dates the successor day advances the timeline by one. -/
lemma toDays_nextDay {d : CalDate} (h : ValidDate d) :
    toDays (nextDay d) = toDays d + 1 := by
  obtain ⟨hy, hm1, hm2, hd1, hd2⟩ := h
  unfold nextDay
  split
  · simp only [toDays]
    omega
  · have hday : d.day = daysInMonth d.year d.month := by omega
    split
    · simp only [toDays]
      rw [daysBeforeMonth_succ d.year d.month hm1]
      omega
    · have hm12 : d.month = 12 := by omega
      simp only [toDays]
      rw [leapsBefore_succ d.year hy]
      have h334 := daysBeforeMonth_twelve d.year
      rw [hm12] at hday hd2 ⊢
      have h31 : daysInMonth d.year 12 = 31 := rfl
      rw [h31] at hday
      have hb1 : daysBeforeMonth (d.year + 1) 1 = 0 := rfl
      cases hL : isLeap d.year <;> simp [hL] at h334 ⊢ <;> omega

/-- Day addition preserves validity and advances the timeline linearly. -/
lemma toDays_addDays {d : CalDate} (h : ValidDate d) (k : Nat) :
    ValidDate (addDays d k) ∧ toDays (addDays d k) = toDays d + k := by
  induction k with
  | zero => exact ⟨h, rfl⟩
  | succ k ih =>
    have hstep : addDays d (k + 1) = nextDay (addDays d k) :=
      Function.iterate_succ_apply' nextDay k d
    refine ⟨?_, ?_⟩
    · rw [hstep]; exact validDate_nextDay ih.1
    · rw [hstep, toDays_nextDay ih.1, ih.2]
      omega

/-- A nonnegative JS day count adds through `addDays`. -/
lemma addDaysInt_ofNat (d : CalDate) (k : Nat) :
    addDaysInt d (k : Int) = addDays d k := by
  simp [addDaysInt]

/-- Day additions compose. -/
lemma addDays_addDays (d : CalDate) (a b : Nat) :
    addDays (addDays d a) b = addDays d (a + b) := by
  unfold addDays
  rw [Nat.add_comm a b, Function.iterate_add_apply]

/-- Under `start <= end` the floored JS division computes the natural
quotient of the day difference. -/
lemma daysPerBatch_eq (start endD : CalDate) (n : Nat)
    (hle : dateLe start endD = true) :
    Int.fdiv (differenceInCalendarDays endD start) (n : Int) =
      ((toDays endD - toDays start) / n : Nat) := by
  have hle' : toDays start ≤ toDays endD := by
    simpa [dateLe] using hle
  unfold differenceInCalendarDays
  rw [← Int.natCast_sub hle']
  exact (Int.ofNat_fdiv _ _).symm

/-- The non-final count-loop step is `daysPerBatch + 1` days forward. -/
lemma countStep_ofNat (q : Nat) (d : CalDate) :
    countStep (q : Int) d = addDays d (q + 1) := by
  unfold countStep
  rw [addDaysInt_ofNat]
  rw [show ((1 : Int) = ((1 : Nat) : Int)) from rfl, addDaysInt_ofNat]
  rw [addDays_addDays]

/-- Iterating the count-loop step walks `i * (daysPerBatch + 1)` days. -/
lemma countStep_iterate (q : Nat) (d : CalDate) (i : Nat) :
    (countStep (q : Int))^[i] d = addDays d (i * (q + 1)) := by
  induction i with
  | zero => simp [addDays]
  | succ i ih =>
    rw [Function.iterate_succ_apply', ih, countStep_ofNat, addDays_addDays]
    congr 1
    ring

/-- The JS date order is asymmetric. -/
lemma dateLt_asymm {a b : CalDate} (h : dateLt a b = true) : dateLt b a = false := by
  simp only [dateLt, decide_eq_true_eq] at h
  simp only [dateLt, decide_eq_false_iff_not]
  omega

/-- Strict date order implies weak date order. -/
lemma dateLe_of_dateLt {a b : CalDate} (h : dateLt a b = true) : dateLe a b = true := by
  simp only [dateLt, decide_eq_true_eq] at h
  simp only [dateLe, decide_eq_true_eq]
  omega

/-- Characterisation of a terminating run of the duration-branch `while`
loop: every produced interval starts at the corresponding iterate of the
step, starts strictly before `endD`, and ends at the next iterate clamped
to `endD`; the loop stops exactly when the iterated start reaches `endD`. -/
lemma durationLoopF_spec (step : CalDate → CalDate) (endD : CalDate) :
    ∀ (fuel : Nat) (cur : CalDate) (l : List DateInterval),
      durationLoopF step endD cur fuel = some l →
      (∀ i a, l[i]? = some a →
        a.start = step^[i] cur ∧
        dateLt a.start endD = true ∧
        a.stop = (if dateLt endD (step^[i + 1] cur) then endD else step^[i + 1] cur)) ∧
      (l = [] ↔ dateLt cur endD = false) ∧
      dateLt (step^[l.length] cur) endD = false := by
  intro fuel
  induction fuel with
  | zero =>
    intro cur l h
    exact absurd h (by simp [durationLoopF])
  | succ fuel ih =>
    intro cur l h
    simp only [durationLoopF] at h
    by_cases hg : dateLt cur endD = true
    · rw [if_pos hg] at h
      cases hrec : durationLoopF step endD (step cur) fuel with
      | none => rw [hrec] at h; exact absurd h (by simp)
      | some rest =>
        rw [hrec] at h
        have hl : l = ⟨cur, if dateLt endD (step cur) then endD else step cur⟩ :: rest := by
          cases h
          rfl
        subst hl
        obtain ⟨ih1, _, ih3⟩ := ih (step cur) rest hrec
        refine ⟨?_, ?_, ?_⟩
        · intro i a ha
          cases i with
          | zero =>
            rw [List.getElem?_cons_zero] at ha
            cases ha
            exact ⟨rfl, hg, rfl⟩
          | succ j =>
            rw [List.getElem?_cons_succ] at ha
            obtain ⟨h1, h2, h3⟩ := ih1 j a ha
            rw [Function.iterate_succ_apply step j cur] at *
            exact ⟨h1, h2, by rw [Function.iterate_succ_apply step (j + 1) cur]; exact h3⟩
        · simp only [List.cons_ne_nil, false_iff]
          simp [hg]
        · rw [List.length_cons, Function.iterate_succ_apply step rest.length cur]
          exact ih3
    · rw [if_neg hg] at h
      have hl : l = [] := by cases h; rfl
      subst hl
      refine ⟨?_, ?_, ?_⟩
      · intro i a ha
        simp at ha
      · simpa using eq_false_of_ne_true hg
      · simpa using eq_false_of_ne_true hg


/-- **C3.** A terminating run of the duration branch steps from `startDate`
by repeatedly applying the duration, producing intervals from the current
start to the candidate next boundary clamped to `endDate`, advancing to the
unclamped candidate, and stopping once the current start reaches `endDate`;
in particular `Duration(1, month)` over 2023-01-01..2023-03-31 yields the
three intervals ending 2023-02-01, 2023-03-01, 2023-03-31. -/
theorem claim_c3_duration_partition :
    (∀ (amount : Nat) (unit : String) (start endD : CalDate) (fuel : Nat)
        (l : List DateInterval),
      parseBatchSizeDuration amount unit start endD fuel = some l →
      (∀ i a, l[i]? = some a →
        a.start = (applyDuration unit amount)^[i] start ∧
        dateLt a.start endD = true ∧
        a.stop = (if dateLt endD ((applyDuration unit amount)^[i + 1] start) then endD
          else (applyDuration unit amount)^[i + 1] start)) ∧
      dateLt ((applyDuration unit amount)^[l.length] start) endD = false) ∧
    parseBatchSizeDuration 1 "month" ⟨2023, 1, 1⟩ ⟨2023, 3, 31⟩ 5 =
      some exampleDurationIntervals := by
  constructor
  · intro amount unit start endD fuel l h
    obtain ⟨h1, _, h3⟩ := durationLoopF_spec (applyDuration unit amount) endD fuel start l h
    exact ⟨h1, h3⟩
  · decide

/-- Witness for C3: at the specification's example the characterisation
applies with the loop's stopping condition holding after three intervals. -/
theorem claim_c3_duration_partition_witness :
    dateLt ((applyDuration "month" 1)^[exampleDurationIntervals.length] ⟨2023, 1, 1⟩)
      ⟨2023, 3, 31⟩ = false :=
  (claim_c3_duration_partition.1 1 "month" ⟨2023, 1, 1⟩ ⟨2023, 3, 31⟩ 5
    exampleDurationIntervals claim_c3_duration_partition.2).2

/-- **C2.** For every positive `n` and `startDate <= endDate`, the count
branch returns exactly `n` intervals: interval 0 starts at `startDate`,
every non-final interval ends `floor(totalDays / n)` days after its start,
every next interval starts one day after the previous interval's end, and
the last interval ends exactly at `endDate`. -/
theorem claim_c2_count_partition (n : Nat) (start endD : CalDate)
    (hn : 0 < n) (hle : dateLe start endD = true) :
    (parseBatchSizeCount n start endD).length = n ∧
    (∀ a, (parseBatchSizeCount n start endD)[0]? = some a → a.start = start) ∧
    (∀ i a, i + 1 < n → (parseBatchSizeCount n start endD)[i]? = some a →
      a.stop = addDaysInt a.start (Int.fdiv (differenceInCalendarDays endD start) n)) ∧
    (∀ i a b, (parseBatchSizeCount n start endD)[i]? = some a →
      (parseBatchSizeCount n start endD)[i + 1]? = some b →
      b.start = addDaysInt a.stop 1) ∧
    (∀ a, (parseBatchSizeCount n start endD)[n - 1]? = some a → a.stop = endD) := by
  set dpb := Int.fdiv (differenceInCalendarDays endD start) n with hdpb
  have hlen : (parseBatchSizeCount n start endD).length = n :=
    countLoop_length dpb endD n start
  refine ⟨hlen, ?_, ?_, ?_, ?_⟩
  · intro a ha
    rw [parseBatchSizeCount] at ha
    rw [countLoop_getElem dpb endD n start 0 hn] at ha
    cases ha
    rfl
  · intro i a hi ha
    rw [parseBatchSizeCount] at ha
    rw [countLoop_getElem dpb endD n start i (by omega)] at ha
    rw [if_neg (by omega)] at ha
    cases ha
    rfl
  · intro i a b ha hb
    have hib : i + 1 < n := by
      by_contra hcon
      have : (parseBatchSizeCount n start endD)[i + 1]? = none :=
        List.getElem?_eq_none (by omega)
      rw [this] at hb
      exact Option.noConfusion hb
    rw [parseBatchSizeCount] at ha hb
    rw [countLoop_getElem dpb endD n start i (by omega)] at ha
    rw [countLoop_getElem dpb endD n start (i + 1) hib] at hb
    rw [if_neg (by omega)] at ha
    cases ha
    cases hb
    simp [Function.iterate_succ_apply', countStep]
  · intro a ha
    rw [parseBatchSizeCount] at ha
    rw [countLoop_getElem dpb endD n start (n - 1) (by omega)] at ha
    rw [if_pos rfl] at ha
    cases ha
    rfl

/-- Witness for C2 at the specification's own example:
`partition(Count(4), 2023-01-01, 2023-12-31)` yields 4 intervals. -/
theorem claim_c2_count_partition_witness :
    (0 < 4 ∧ dateLe ⟨2023, 1, 1⟩ ⟨2023, 12, 31⟩ = true) ∧
      (parseBatchSizeCount 4 ⟨2023, 1, 1⟩ ⟨2023, 12, 31⟩).length = 4 :=
  ⟨⟨by decide, by decide⟩,
    (claim_c2_count_partition 4 ⟨2023, 1, 1⟩ ⟨2023, 12, 31⟩ (by decide) (by decide)).1⟩

/-- **C5, counterexample.** The claim that every `BatchSpec` maps a
degenerate range `[d, d]` to exactly one zero-width interval is false: the
duration branch returns no interval at all (the `while` guard fails
immediately), and the count branch with `n = 2` returns two intervals. -/
theorem claim_c5_counterexample :
    parseBatchSizeDuration 1 "day" ⟨2023, 1, 1⟩ ⟨2023, 1, 1⟩ 1 = some [] ∧
      (parseBatchSizeCount 2 ⟨2023, 1, 1⟩ ⟨2023, 1, 1⟩).length = 2 := by
  constructor
  · decide
  · decide

/-- **C5, amended.** On a degenerate range `[d, d]` the count branch returns
exactly `n` intervals whose first is the zero-width `\x7b d, d \x7d` (so only
`Count(1)` matches the original claim), while the duration branch returns
the empty sequence. -/
theorem claim_c5_degenerate_range (d : CalDate) (n : Nat) (hn : 0 < n) :
    (parseBatchSizeCount n d d).length = n ∧
    (parseBatchSizeCount n d d)[0]? = some ⟨d, d⟩ ∧
    (∀ (amount : Nat) (unit : String) (fuel : Nat), 0 < fuel →
      parseBatchSizeDuration amount unit d d fuel = some []) := by
  refine ⟨countLoop_length _ d n d, ?_, ?_⟩
  · have hdiff : Int.fdiv (differenceInCalendarDays d d) (n : Int) = 0 := by
      simp [differenceInCalendarDays]
    have h := countLoop_getElem (Int.fdiv (differenceInCalendarDays d d) (n : Int)) d n d 0 hn
    rw [parseBatchSizeCount, h, hdiff]
    have hadd : addDaysInt d 0 = d := rfl
    simp [hadd]
  · intro amount unit fuel hf
    cases fuel with
    | zero => omega
    | succ f =>
      rw [parseBatchSizeDuration, durationLoopF]
      rw [if_neg (by simp [dateLt])]

/-- Witness for the amended C5, at a concrete date with `Count(1)` and a
one-day duration. -/
theorem claim_c5_degenerate_range_witness :
    (parseBatchSizeCount 1 ⟨2023, 5, 5⟩ ⟨2023, 5, 5⟩)[0]? =
        some ⟨⟨2023, 5, 5⟩, ⟨2023, 5, 5⟩⟩ ∧
      parseBatchSizeDuration 1 "day" ⟨2023, 5, 5⟩ ⟨2023, 5, 5⟩ 3 = some [] :=
  ⟨(claim_c5_degenerate_range ⟨2023, 5, 5⟩ 1 (by decide)).2.1,
    (claim_c5_degenerate_range ⟨2023, 5, 5⟩ 1 (by decide)).2.2 1 "day" 3 (by decide)⟩

/-- **C4, counterexample.** Both halves of the claimed invariant fail on the
code: in the count branch with `startDate = endDate` and `n = 2` (the very
`n > totalDays + 1` edge case the claim covers) the final interval starts
after it ends, and in the duration branch consecutive intervals share their
boundary day instead of being separated by one day. -/
theorem claim_c4_counterexample :
    (dateLe ⟨2023, 1, 1⟩ ⟨2023, 1, 1⟩ = true ∧
      (parseBatchSizeCount 2 ⟨2023, 1, 1⟩ ⟨2023, 1, 1⟩)[1]? =
        some ⟨⟨2023, 1, 2⟩, ⟨2023, 1, 1⟩⟩ ∧
      dateLe ⟨2023, 1, 2⟩ ⟨2023, 1, 1⟩ = false) ∧
    (parseBatchSizeDuration 1 "month" ⟨2023, 1, 1⟩ ⟨2023, 3, 31⟩ 5 =
        some exampleDurationIntervals ∧
      exampleDurationIntervals[0]? = some ⟨⟨2023, 1, 1⟩, ⟨2023, 2, 1⟩⟩ ∧
      exampleDurationIntervals[1]? = some ⟨⟨2023, 2, 1⟩, ⟨2023, 3, 1⟩⟩ ∧
      nextDay ⟨2023, 2, 1⟩ = ⟨2023, 2, 2⟩ ∧
      (⟨2023, 2, 2⟩ : CalDate) ≠ ⟨2023, 2, 1⟩) := by
  refine ⟨⟨by decide, by decide, by decide⟩, by decide, by decide, by decide, by decide, by decide⟩

/-- **C4, amended.** In the count branch every next interval starts one day
after the previous interval's end; every non-final interval satisfies
`start <= end`, and the final interval satisfies it exactly when
`(n-1) * (daysPerBatch+1) <= totalDays` — in particular it fails whenever
`n > totalDays + 1`.  In the duration branch consecutive intervals share a
boundary (the next start equals the previous end), and every interval
satisfies `start <= end` whenever the step is monotone on valid dates. -/
theorem claim_c4_interval_invariants :
    (∀ (n : Nat) (start endD : CalDate), 0 < n → ValidDate start →
      dateLe start endD = true →
      ((∀ i a b, (parseBatchSizeCount n start endD)[i]? = some a →
          (parseBatchSizeCount n start endD)[i + 1]? = some b →
          b.start = addDaysInt a.stop 1) ∧
        (∀ i a, i + 1 < n → (parseBatchSizeCount n start endD)[i]? = some a →
          dateLe a.start a.stop = true) ∧
        (∀ a, (parseBatchSizeCount n start endD)[n - 1]? = some a →
          (dateLe a.start a.stop = true ↔
            (n - 1) * ((toDays endD - toDays start) / n + 1) ≤
              toDays endD - toDays start)) ∧
        (toDays endD - toDays start + 1 < n →
          ∃ a, (parseBatchSizeCount n start endD)[n - 1]? = some a ∧
            dateLe a.start a.stop = false))) ∧
    (∀ (step : CalDate → CalDate) (start endD : CalDate) (fuel : Nat)
        (l : List DateInterval),
      durationLoopF step endD start fuel = some l →
      ((∀ i a b, l[i]? = some a → l[i + 1]? = some b → b.start = a.stop) ∧
        ((∀ e, ValidDate e → ValidDate (step e) ∧ dateLe e (step e) = true) →
          ValidDate start → ∀ a ∈ l, dateLe a.start a.stop = true))) := by
  constructor
  · intro n start endD hn hvs hle
    have hT : toDays start ≤ toDays endD := by
      simpa [dateLe] using hle
    have hq : Int.fdiv (differenceInCalendarDays endD start) (n : Int) =
        (((toDays endD - toDays start) / n : Nat) : Int) :=
      daysPerBatch_eq start endD n hle
    have hget : ∀ i, i < n → (parseBatchSizeCount n start endD)[i]? =
        some ⟨addDays start (i * ((toDays endD - toDays start) / n + 1)),
          if i = n - 1 then endD
          else addDaysInt
            (addDays start (i * ((toDays endD - toDays start) / n + 1)))
            (((toDays endD - toDays start) / n : Nat) : Int)⟩ := by
      intro i hi
      rw [parseBatchSizeCount, hq, countLoop_getElem _ endD n start i hi,
        countStep_iterate]
    refine ⟨?_, ?_, ?_, ?_⟩
    · intro i a b ha hb
      have hib : i + 1 < n := by
        by_contra hcon
        have hlen : (parseBatchSizeCount n start endD).length = n :=
          countLoop_length _ endD n start
        have : (parseBatchSizeCount n start endD)[i + 1]? = none :=
          List.getElem?_eq_none (by omega)
        rw [this] at hb
        exact Option.noConfusion hb
      rw [hget i (by omega)] at ha
      rw [hget (i + 1) hib] at hb
      cases ha
      cases hb
      dsimp only
      rw [if_neg (by omega)]
      rw [show (((toDays endD - toDays start) / n : Nat) : Int) =
        ((((toDays endD - toDays start) / n : Nat) : Nat) : Int) from rfl]
      rw [addDaysInt_ofNat, show ((1 : Int) = ((1 : Nat) : Int)) from rfl,
        addDaysInt_ofNat, addDays_addDays, addDays_addDays]
      congr 1
      ring
    · intro i a hi1 ha
      rw [hget i (by omega)] at ha
      cases ha
      dsimp only
      rw [if_neg (by omega), addDaysInt_ofNat]
      have hva : ValidDate (addDays start (i * ((toDays endD - toDays start) / n + 1))) :=
        (toDays_addDays hvs _).1
      simp [dateLe, (toDays_addDays hva _).2]
    · intro a ha
      rw [hget (n - 1) (by omega)] at ha
      cases ha
      dsimp only
      rw [if_pos rfl]
      have hiter := (toDays_addDays hvs
        ((n - 1) * ((toDays endD - toDays start) / n + 1))).2
      simp only [dateLe, hiter, decide_eq_true_eq]
      omega
    · intro hTn
      refine ⟨_, hget (n - 1) (by omega), ?_⟩
      dsimp only
      rw [if_pos rfl]
      have hiter := (toDays_addDays hvs
        ((n - 1) * ((toDays endD - toDays start) / n + 1))).2
      have hmul : n - 1 ≤ (n - 1) * ((toDays endD - toDays start) / n + 1) :=
        Nat.le_mul_of_pos_right (n - 1) (Nat.succ_pos ((toDays endD - toDays start) / n))
      rw [dateLe, hiter]
      simp only [decide_eq_false_iff_not]
      omega
  · intro step start endD fuel l h
    obtain ⟨h1, _, _⟩ := durationLoopF_spec step endD fuel start l h
    constructor
    · intro i a b ha hb
      obtain ⟨hb1, hb2, _⟩ := h1 (i + 1) b hb
      obtain ⟨_, _, ha3⟩ := h1 i a ha
      rw [hb1] at hb2
      have hfalse : dateLt endD (step^[i + 1] start) = false := dateLt_asymm hb2
      rw [ha3, hb1, hfalse]
      simp
    · intro hstep hvs a ha
      obtain ⟨i, hi⟩ := List.mem_iff_getElem?.mp ha
      obtain ⟨h1a, h1b, h1c⟩ := h1 i a hi
      have hvi : ∀ j, ValidDate (step^[j] start) := by
        intro j
        induction j with
        | zero => simpa using hvs
        | succ j ihj =>
          rw [Function.iterate_succ_apply']
          exact (hstep _ ihj).1
      rw [h1c]
      by_cases hc : dateLt endD (step^[i + 1] start) = true
      · simp only [hc, if_pos]
        rw [h1a]
        rw [h1a] at h1b
        exact dateLe_of_dateLt h1b
      · have hc' : dateLt endD (step^[i + 1] start) = false := eq_false_of_ne_true hc
        simp only [hc', Bool.false_eq_true, if_false]
        rw [h1a, Function.iterate_succ_apply']
        exact (hstep _ (hvi i)).2

set_option maxRecDepth 8192 in
/-- Witness for the amended C4: the one-day-gap contiguity of the count
branch at the specification's `Count(4)` example, the shared boundary of
the duration branch on a two-interval one-day-step run, and `start <= end`
inside its first interval. -/
theorem claim_c4_interval_invariants_witness :
    ((⟨⟨2023, 4, 3⟩, ⟨2023, 7, 3⟩⟩ : DateInterval).start =
        addDaysInt (⟨⟨2023, 1, 1⟩, ⟨2023, 4, 2⟩⟩ : DateInterval).stop 1) ∧
    ((⟨⟨2023, 1, 2⟩, ⟨2023, 1, 3⟩⟩ : DateInterval).start =
        (⟨⟨2023, 1, 1⟩, ⟨2023, 1, 2⟩⟩ : DateInterval).stop) ∧
    dateLe (⟨2023, 1, 1⟩ : CalDate) ⟨2023, 1, 2⟩ = true := by
  have hstep : ∀ e, ValidDate e →
      ValidDate (applyDuration "day" 1 e) ∧ dateLe e (applyDuration "day" 1 e) = true := by
    intro e he
    have hd : applyDuration "day" 1 e = nextDay e := rfl
    rw [hd]
    exact ⟨validDate_nextDay he, by simp [dateLe, toDays_nextDay he]⟩
  have hdur := claim_c4_interval_invariants.2 (applyDuration "day" 1)
    ⟨2023, 1, 1⟩ ⟨2023, 1, 3⟩ 5
    [⟨⟨2023, 1, 1⟩, ⟨2023, 1, 2⟩⟩, ⟨⟨2023, 1, 2⟩, ⟨2023, 1, 3⟩⟩] (by decide)
  refine ⟨?_, ?_, ?_⟩
  · exact (claim_c4_interval_invariants.1 4 ⟨2023, 1, 1⟩ ⟨2023, 12, 31⟩
      (by decide) (by decide) (by decide)).1 0 _ _ (by decide) (by decide)
  · exact hdur.1 0 _ _ (by decide) (by decide)
  · exact hdur.2 hstep (by decide) ⟨⟨2023, 1, 1⟩, ⟨2023, 1, 2⟩⟩ (by decide)

/-- Binding a successful `Except` continues with its value. -/
lemma except_bind_ok {α β : Type} (a : α) (f : α → Except String β) :
    (Except.ok a >>= f) = f a := rfl

/-- Binding a failed `Except` short-circuits with the error. -/
lemma except_bind_error {α β : Type} (e : String) (f : α → Except String β) :
    ((Except.error e : Except String α) >>= f) = Except.error e := rfl

/-- A failing batch aborts the whole loop with the underlying error, after
any earlier successful batches. -/
lemma batchLoop_error (gmail : MailClient) (base : SearchCriteria) (limit : Option Nat)
    (r : DateInterval) (ys : List DateInterval) (e : String)
    (hr : searchEmails gmail (rangeCriteria base r) limit = .error e) :
    ∀ xs : List DateInterval,
      (∀ x ∈ xs, ∃ v, searchEmails gmail (rangeCriteria base x) limit = .ok v) →
      batchLoop gmail base limit (xs ++ r :: ys) = .error e := by
  intro xs
  induction xs with
  | nil =>
    intro _
    simp [batchLoop, hr, except_bind_error]
  | cons x xs ih =>
    intro hok
    obtain ⟨v, hv⟩ := hok x (List.mem_cons_self x xs)
    have ht := ih (fun y hy => hok y (List.mem_cons_of_mem x hy))
    simp [batchLoop, hv, ht, except_bind_ok, except_bind_error]

/-- A failing detail fetch aborts `mapM` with the underlying error, after
any earlier successful fetches. -/
lemma mapM_getMsg_error (g : Nat → Except String MessageSummary) (b : Nat) (e : String)
    (hb : g b = .error e) :
    ∀ pre : List Nat, (∀ m ∈ pre, ∃ v, g m = .ok v) →
      ∀ post : List Nat, (pre ++ b :: post).mapM g = .error e := by
  intro pre
  induction pre with
  | nil =>
    intro _ post
    rw [List.nil_append, List.mapM_cons, hb]
    rfl
  | cons m pre ih =>
    intro hok post
    obtain ⟨v, hv⟩ := hok m (List.mem_cons_self m pre)
    have ht := ih (fun y hy => hok y (List.mem_cons_of_mem m hy)) post
    rw [List.cons_append, List.mapM_cons, hv, except_bind_ok, ht]
    rfl

/-- When every batch succeeds, the loop concatenates the batch results in
batch order. -/
lemma batchLoop_ok (gmail : MailClient) (base : SearchCriteria) (limit : Option Nat)
    (f : DateInterval → List MessageSummary) :
    ∀ ranges : List DateInterval,
      (∀ r ∈ ranges, searchEmails gmail (rangeCriteria base r) limit = .ok (f r)) →
      batchLoop gmail base limit ranges = .ok (ranges.map f).flatten := by
  intro ranges
  induction ranges with
  | nil => intro _; rfl
  | cons r rest ih =>
    intro hok
    have hr := hok r (List.mem_cons_self r rest)
    have ht := ih (fun y hy => hok y (List.mem_cons_of_mem r hy))
    simp [batchLoop, hr, ht, except_bind_ok]

/-- **C6.** If any per-batch list call or any per-message detail call fails,
the whole multi-batch search returns no results and surfaces the underlying
error unchanged, with no retry: a failing batch after any successful ones
makes the action return that error, and a failing detail fetch makes
`searchEmails` return that error. -/
theorem claim_c6_failure_aborts_search :
    (∀ (gmail : MailClient) (base : SearchCriteria) (limit : Option Nat)
        (xs ys : List DateInterval) (r : DateInterval) (e : String),
      (∀ x ∈ xs, ∃ v, searchEmails gmail (rangeCriteria base x) limit = .ok v) →
      searchEmails gmail (rangeCriteria base r) limit = .error e →
      emailsSearchAction gmail base limit (xs ++ r :: ys) = .error e) ∧
    (∀ (gmail : MailClient) (c : SearchCriteria) (limit : Option Nat)
        (pre post : List Nat) (b : Nat) (e : String),
      gmail.list (constructSearchQuery c) (listMaxResults limit) = .ok (pre ++ b :: post) →
      (∀ m ∈ pre, ∃ v, gmail.getMsg m = .ok v) →
      gmail.getMsg b = .error e →
      searchEmails gmail c limit = .error e) := by
  constructor
  · intro gmail base limit xs ys r e hok hr
    have hloop := batchLoop_error gmail base limit r ys e hr xs hok
    simp [emailsSearchAction, hloop, except_bind_error]
  · intro gmail c limit pre post b e hlist hok hb
    have hmap := mapM_getMsg_error gmail.getMsg b e hb pre hok post
    simp only [searchEmails]
    rw [hlist, except_bind_ok]
    exact hmap



/-- Witness for C6: with three batches whose second rejects, the action
surfaces `boom` and returns nothing, and a failing detail fetch surfaces
its error through `searchEmails`. -/
theorem claim_c6_failure_aborts_search_witness :
    emailsSearchAction failSecondClient emptyCriteria none
      [⟨⟨2023, 1, 1⟩, ⟨2023, 1, 10⟩⟩, ⟨⟨2023, 1, 11⟩, ⟨2023, 1, 20⟩⟩,
        ⟨⟨2023, 1, 31⟩, ⟨2023, 2, 9⟩⟩] = .error "boom" := by
  refine claim_c6_failure_aborts_search.1 failSecondClient emptyCriteria none
    [⟨⟨2023, 1, 1⟩, ⟨2023, 1, 10⟩⟩] [⟨⟨2023, 1, 31⟩, ⟨2023, 2, 9⟩⟩]
    ⟨⟨2023, 1, 11⟩, ⟨2023, 1, 20⟩⟩ "boom" ?_ ?_
  · intro x hx
    simp only [List.mem_singleton] at hx
    subst hx
    exact ⟨[], rfl⟩
  · rfl

/-- **C7.** When every batch succeeds, the action concatenates the batch
results in batch order and only afterwards truncates the accumulated
sequence to the first `limit` records. -/
theorem claim_c7_limit_after_batches (gmail : MailClient) (base : SearchCriteria)
    (k : Nat) (ranges : List DateInterval) (f : DateInterval → List MessageSummary)
    (hk : 0 < k)
    (hok : ∀ r ∈ ranges, searchEmails gmail (rangeCriteria base r) (some k) = .ok (f r)) :
    emailsSearchAction gmail base (some k) ranges = .ok ((ranges.map f).flatten.take k) := by
  have hloop := batchLoop_ok gmail base (some k) f ranges hok
  simp [emailsSearchAction, hloop, except_bind_ok, Nat.pos_iff_ne_zero.mp hk]

/-- Witness for C7: limit 5 with three batches of three messages each
returns exactly the first five records in batch order. -/
theorem claim_c7_limit_after_batches_witness :
    emailsSearchAction threeClient emptyCriteria (some 5)
      [⟨⟨2023, 1, 1⟩, ⟨2023, 1, 10⟩⟩, ⟨⟨2023, 1, 11⟩, ⟨2023, 1, 20⟩⟩,
        ⟨⟨2023, 1, 21⟩, ⟨2023, 1, 31⟩⟩] =
      .ok [⟨0, "m"⟩, ⟨1, "m"⟩, ⟨2, "m"⟩, ⟨0, "m"⟩, ⟨1, "m"⟩] := by
  have h := claim_c7_limit_after_batches threeClient emptyCriteria 5
    [⟨⟨2023, 1, 1⟩, ⟨2023, 1, 10⟩⟩, ⟨⟨2023, 1, 11⟩, ⟨2023, 1, 20⟩⟩,
      ⟨⟨2023, 1, 21⟩, ⟨2023, 1, 31⟩⟩]
    (fun _ => [⟨0, "m"⟩, ⟨1, "m"⟩, ⟨2, "m"⟩]) (by decide) (fun r hr => rfl)
  exact h


/-- **C8, counterexample.** A limit of 1000 is passed to the provider as
`maxResults: 1000`, not as `min(1000, 500) = 500`: the claim that the
per-call max-results is the smaller of the limit and the 500 cap is false. -/
theorem claim_c8_counterexample :
    searchEmails maxResultsProbe emptyCriteria (some 1000) = .ok [⟨1000, ""⟩] ∧
    min 1000 500 = 500 ∧ (1000 : Nat) ≠ 500 := by
  refine ⟨rfl, rfl, by decide⟩

/-- **C8, amended.** The `maxResults` parameter of the one list call is the
JS expression `limit || 500`: the limit itself whenever it is set and
nonzero — even above 500 — and 500 only when the limit is unset or zero. -/
theorem claim_c8_maxresults_passthrough :
    (∀ (c : SearchCriteria) (k : Nat), 0 < k →
      searchEmails maxResultsProbe c (some k) = .ok [⟨k, ""⟩]) ∧
    (∀ c : SearchCriteria, searchEmails maxResultsProbe c none = .ok [⟨500, ""⟩]) ∧
    (∀ c : SearchCriteria, searchEmails maxResultsProbe c (some 0) = .ok [⟨500, ""⟩]) := by
  refine ⟨?_, ?_, ?_⟩
  · intro c k hk
    have hlm : listMaxResults (some k) = k := by
      simp [listMaxResults, Nat.pos_iff_ne_zero.mp hk]
    simp only [searchEmails, hlm]
    rfl
  · intro c
    rfl
  · intro c
    rfl

/-- Witness for the amended C8 at limit 1000. -/
theorem claim_c8_maxresults_passthrough_witness :
    searchEmails maxResultsProbe emptyCriteria (some 1000) = .ok [⟨1000, ""⟩] :=
  claim_c8_maxresults_passthrough.1 emptyCriteria 1000 (by decide)

/-- `add` ignores the duration key built from the unrecognised unit
`fortnight`, so the step is the identity. -/
lemma applyDuration_fortnight (d : CalDate) : applyDuration "fortnight" 1 d = d := rfl

/-- With an identity step, the duration loop never terminates on a
non-degenerate range: it exhausts any fuel. -/
lemma durationLoopF_id_none (endD : CalDate) (step : CalDate → CalDate)
    (hstep : ∀ d, step d = d) :
    ∀ (fuel : Nat) (cur : CalDate), dateLt cur endD = true →
      durationLoopF step endD cur fuel = none := by
  intro fuel
  induction fuel with
  | zero => intro cur _; rfl
  | succ fuel ih =>
    intro cur h
    simp only [durationLoopF]
    rw [if_pos h, hstep, ih cur h]

/-- **C9, counterexample.** The malformed token `1 fortnight` (amount with
an unrecognised unit) is not rejected at all: it reaches the duration
branch, its step is the identity, and the partition loop exhausts a fuel of
1000 without terminating or raising anything — no
`MalformedBatchSpecError` exists in the code. -/
theorem claim_c9_counterexample :
    classifyBatchToken "1 fortnight" = .duration (some 1) "fortnight" ∧
    applyDuration "fortnight" 1 ⟨2023, 1, 1⟩ = ⟨2023, 1, 1⟩ ∧
    parseBatchSizeDuration 1 "fortnight" ⟨2023, 1, 1⟩ ⟨2023, 12, 31⟩ 1000 = none := by
  refine ⟨by decide, rfl, ?_⟩
  exact durationLoopF_id_none ⟨2023, 12, 31⟩ _ applyDuration_fortnight 1000 _ (by decide)

/-- **C9, amended.** A spaceless token that is not an integer makes the
destructured unit `undefined`, so `unit.endsWith` throws a synchronous
`TypeError` before any per-batch search; but an `<amount> <unit>` pair with
an unrecognised unit is not rejected: the step is ignored and the partition
loop never terminates, raising nothing. -/
theorem claim_c9_malformed_token (s : String)
    (h1 : jsNumberNat s = none) (h2 : (splitOnSpaceChars s.data).length = 1) :
    classifyBatchToken s = .jsTypeError ∧
    (∀ fuel, parseBatchSizeDuration 1 "fortnight" ⟨2023, 1, 1⟩ ⟨2023, 12, 31⟩ fuel = none) := by
  constructor
  · rw [classifyBatchToken, h1]
    cases hsplit : splitOnSpaceChars s.data with
    | nil => rfl
    | cons g gs =>
      cases gs with
      | nil => rfl
      | cons g2 gs2 => rw [hsplit] at h2; simp at h2
  · intro fuel
    exact durationLoopF_id_none ⟨2023, 12, 31⟩ _ applyDuration_fortnight fuel _ (by decide)

/-- Witness for the amended C9 at the spaceless token `xyz`. -/
theorem claim_c9_malformed_token_witness :
    classifyBatchToken "xyz" = .jsTypeError :=
  (claim_c9_malformed_token "xyz" (by decide) (by decide)).1

end GmailCli
